import Mathlib

/-!
Verification of the post-conversion text-normalization pipeline of
convert-docx-md-jats (src/convert-to-md.py).

The Python passes are regular-expression substitutions and a line-oriented
state machine.  Every regex used by the code is simple enough that its
backtracking behaviour is deterministic (character classes of the form
`[^x]` can never match the delimiter `x` that follows them, so lazy and
greedy quantifiers bounded by such delimiters admit exactly one parse);
each pattern is therefore embedded as an explicit recursive matcher on
`List Char`, and `re.sub` as a left-to-right scanner that replaces the
leftmost match and resumes scanning after the replaced span, exactly as
CPython does.  Fixed-point loops (`while previous != content`) are embedded
with explicit fuel `length + 1`; a proved lemma (`pyLoop_fix`) shows that,
because every changing application strictly shrinks the buffer, this fuel
always reaches the genuine fixed point, so the embedding agrees with the
unbounded Python loop.
-/

namespace DocxMd

/-- Python whitespace, as matched by the regex class `\s` and stripped by
`str.strip()` (ASCII range, which covers all buffers considered here). -/
def isWs (c : Char) : Bool :=
  (c == ' ') || (c == '\t') || (c == '\n') || (c == '\r') || (c == '\x0b') || (c == '\x0c')

/-- Python `str.strip()`: drop whitespace characters from both ends. -/
def pyStripL (l : List Char) : List Char :=
  ((l.dropWhile isWs).reverse.dropWhile isWs).reverse

/-- Python `str.strip()` at the `String` level. -/
def pyStripS (s : String) : String := ⟨pyStripL s.data⟩

/-- Longest prefix of characters satisfying `p`, with the remainder.
This is the unique parse of a greedy character-class repetition `C*`
(or `C+` once nonemptiness is checked) that is followed by a character
outside the class. -/
def takeRun (p : Char → Bool) : List Char → List Char × List Char
  | [] => ([], [])
  | c :: cs => if p c then ((takeRun p cs).1.cons c, (takeRun p cs).2) else ([], c :: cs)

/-- Match a literal; on success return the remainder of the input. -/
def expectL : List Char → List Char → Option (List Char)
  | [], s => some s
  | _ :: _, [] => none
  | c :: cs, d :: ds => if c = d then expectL cs ds else none

/-- One `re.sub` scan with fuel: at each position try the matcher; on a match
emit the replacement and resume after the match, otherwise keep the character
and move one position right.  Fuel `s.length` suffices because every match
consumes at least one character. -/
def scanGo (m : List Char → Option (List Char × List Char)) : Nat → List Char → List Char
  | 0, s => s
  | _ + 1, [] => []
  | n + 1, c :: cs =>
    match m (c :: cs) with
    | some (r, t) => r ++ scanGo m n t
    | none => c :: scanGo m n cs

/-- Python `re.sub pattern repl s` for the deterministic matchers used here. -/
def scanSub (m : List Char → Option (List Char × List Char)) (s : List Char) : List Char :=
  scanGo m s.length s

/-- Fuel-bounded fixed-point loop: `while previous != content: content = f(content)`. -/
def loopFuel (f : List Char → List Char) : Nat → List Char → List Char
  | 0, s => s
  | n + 1, s => if f s = s then s else loopFuel f n (f s)

/-- The Python `while previous != content` idiom.  Fuel `length + 1` reaches
the true fixed point whenever each changing application of `f` strictly
shrinks the buffer (lemma `pyLoop_fix`). -/
def pyLoop (f : List Char → List Char) (s : List Char) : List Char :=
  loopFuel f (s.length + 1) s

/-! ### The five single-application bold-merge rules (`fix_split_bold_formatting`)

Each Python pattern has the shape `O1 ([^*]+?) C1 \s* O2 ([^*]+?) C2` where the
delimiters are runs of asterisks, and the replacement is
`R {t1.strip()} {t2.strip()} R`.  Since `[^*]` never matches `*`, the lazy
groups extend exactly to the next asterisk, so the parse is deterministic. -/

/-- Deterministic matcher for one bold-merge pattern
`O1 ([^*]+?) C1 \s* O2 ([^*]+?) C2` with replacement
`R ++ strip t1 ++ " " ++ strip t2 ++ R`. -/
def tryBoldPair (o1 c1 o2 c2 r : List Char) (s : List Char) : Option (List Char × List Char) := do
  let s1 ← expectL o1 s
  let (t1, s2) := takeRun (· != '*') s1
  if t1 = [] then none else do
  let s3 ← expectL c1 s2
  let (_, s4) := takeRun isWs s3
  let s5 ← expectL o2 s4
  let (t2, s6) := takeRun (· != '*') s5
  if t2 = [] then none else do
  let s7 ← expectL c2 s6
  some (r ++ pyStripL t1 ++ ' ' :: pyStripL t2 ++ r, s7)

def stars2 : List Char := ['*', '*']
def stars3 : List Char := ['*', '*', '*']

/-- Rule (a): `\*\*\*([^*]+?)\*\*\*\s*\*\*\*([^*]+?)\*\*\*` → `***t1 t2***`. -/
def tryP1 : List Char → Option (List Char × List Char) :=
  tryBoldPair stars3 stars3 stars3 stars3 stars3

/-- Rule (b): `\*\*\*([^*]+?)\*\*\*\s*\*\*([^*]+?)\*\*` → `***t1 t2***`. -/
def tryP2 : List Char → Option (List Char × List Char) :=
  tryBoldPair stars3 stars3 stars2 stars2 stars3

/-- Rule (c): `\*\*([^*]+?)\*\*\s*\*\*\*([^*]+?)\*\*\*` → `***t1 t2***`. -/
def tryP3 : List Char → Option (List Char × List Char) :=
  tryBoldPair stars2 stars2 stars3 stars3 stars3

/-- Rule (d): `\*\*([^*]+?)\*\*\s*\*\*([^*]+?)\*\*` → `**t1 t2**`. -/
def tryP4 : List Char → Option (List Char × List Char) :=
  tryBoldPair stars2 stars2 stars2 stars2 stars2

/-- Rule (e): `\*\*\*([^*]+?)\*\*\*\s*\*\*\*([^*]+?)\*` → `***t1 t2***`. -/
def tryP5 : List Char → Option (List Char × List Char) :=
  tryBoldPair stars3 stars3 stars3 ['*'] stars3

/-! ### The two fixed-point italic-merge loops (`consolidate_adjacent_italics`) -/

/-- Deterministic matcher for the underscore pattern `_([^_]+)_\s+_([^_]+)_`
with replacement `_{t1.strip()} {t2.strip()}_`. -/
def tryU (s : List Char) : Option (List Char × List Char) := do
  let s1 ← expectL ['_'] s
  let (t1, s2) := takeRun (· != '_') s1
  if t1 = [] then none else do
  let s3 ← expectL ['_'] s2
  let (w, s4) := takeRun isWs s3
  if w = [] then none else do
  let s5 ← expectL ['_'] s4
  let (t2, s6) := takeRun (· != '_') s5
  if t2 = [] then none else do
  let s7 ← expectL ['_'] s6
  some ('_' :: pyStripL t1 ++ ' ' :: pyStripL t2 ++ ['_'], s7)

/-- Deterministic matcher for the asterisk pattern
`(?<!\*)\*([^*]+?)\*(?!\*)\s+(?<!\*)\*([^*]+?)\*(?!\*)` with replacement
`*{t1.strip()} {t2.strip()}*`.  `prev` is the character preceding the match
position in the original buffer (`none` at the start), used by the leading
look-behind; the look-behind before the second `\*` always succeeds because
the preceding character was matched by `\s+`. -/
def tryS (prev : Option Char) (s : List Char) : Option (List Char × List Char) := do
  if prev = some '*' then none else do
  let s1 ← expectL ['*'] s
  let (t1, s2) := takeRun (· != '*') s1
  if t1 = [] then none else do
  let s3 ← expectL ['*'] s2
  if s3.head? = some '*' then none else do
  let (w, s4) := takeRun isWs s3
  if w = [] then none else do
  let s5 ← expectL ['*'] s4
  let (t2, s6) := takeRun (· != '*') s5
  if t2 = [] then none else do
  let s7 ← expectL ['*'] s6
  if s7.head? = some '*' then none else
  some ('*' :: pyStripL t1 ++ ' ' :: pyStripL t2 ++ ['*'], s7)

/-- `re.sub` scan for the asterisk pattern, threading the previous original
character for the look-behind.  Every match of the pattern ends in `*`, so
after a replacement the look-behind character is `*`. -/
def scanSGo : Nat → Option Char → List Char → List Char
  | 0, _, s => s
  | _ + 1, _, [] => []
  | n + 1, prev, c :: cs =>
    match tryS prev (c :: cs) with
    | some (r, t) => r ++ scanSGo n (some '*') t
    | none => c :: scanSGo n (some c) cs

/-- One whole-buffer application of the underscore-italic substitution. -/
def subUL (s : List Char) : List Char := scanSub tryU s

/-- One whole-buffer application of the asterisk-italic substitution. -/
def subSL (s : List Char) : List Char := scanSGo s.length none s

/-- Source `consolidate_adjacent_italics`: iterate the underscore substitution
to a fixed point, then the asterisk substitution to a fixed point. -/
def consolidate_adjacent_italics (s : String) : String :=
  ⟨pyLoop subSL (pyLoop subUL s.data)⟩

/-- String-level single application of the underscore substitution. -/
def subUnderscore (s : String) : String := ⟨subUL s.data⟩

/-- String-level single application of the asterisk substitution. -/
def subAsterisk (s : String) : String := ⟨subSL s.data⟩

/-- String-level underscore fixed-point loop (first loop of the pass). -/
def loopUnderscore (s : String) : String := ⟨pyLoop subUL s.data⟩

/-- String-level asterisk fixed-point loop (second loop of the pass). -/
def loopAsterisk (s : String) : String := ⟨pyLoop subSL s.data⟩

/-! ### The dimension stripper (`remove_image_dimensions`)

Patterns `\s*\{[^}]*width\s*=\s*"[^"]*"[^}]*\}\s*` and the same with
`height`, replacement empty, applied as two sequential single passes.
The only backtracking point of these patterns is which occurrence of the
key inside the `[^}]*` region is chosen; the greedy `[^}]*` selects the
rightmost occurrence whose continuation parses, which `tryDimSplit`
reproduces by trying split positions from the right. -/

/-- Parse `\s*=\s*"[^"]*"[^}]*\}\s*` (everything after the key); return the
remainder after the match.  Each greedy run is followed by a character
outside its class, so the parse is deterministic. -/
def parseDimTail (s : List Char) : Option (List Char) := do
  let (_, u1) := takeRun isWs s
  let u2 ← expectL ['='] u1
  let (_, u3) := takeRun isWs u2
  let u4 ← expectL ['"'] u3
  let (_, u5) := takeRun (· != '"') u4
  let u6 ← expectL ['"'] u5
  let (_, u7) := takeRun (· != '}') u6
  let u8 ← expectL ['}'] u7
  let (_, u9) := takeRun isWs u8
  some u9

/-- Try the key at split position `p`, `p-1`, ..., `0` of the text following
the opening brace (greedy `[^}]*` prefers the rightmost split). -/
def tryDimSplit (key s2 : List Char) : Nat → Option (List Char)
  | 0 =>
    if key.isPrefixOf s2 then parseDimTail (s2.drop key.length) else none
  | p + 1 =>
    (if key.isPrefixOf (s2.drop (p + 1)) then parseDimTail (s2.drop (p + 1 + key.length))
     else none) <|> tryDimSplit key s2 p

/-- Matcher for one dimension-attribute block keyed by `key`; the whole match
(leading whitespace, brace block, trailing whitespace) is deleted. -/
def tryDim (key : List Char) (s : List Char) : Option (List Char × List Char) := do
  let (_, s1) := takeRun isWs s
  let s2 ← expectL ['{'] s1
  let rest ← tryDimSplit key s2 (takeRun (· != '}') s2).1.length
  some ([], rest)

def widthKey : List Char := "width".data
def heightKey : List Char := "height".data

/-- Source `remove_image_dimensions`: delete width-keyed blocks, then delete
remaining height-keyed blocks. -/
def remove_image_dimensions (s : String) : String :=
  ⟨scanSub (tryDim heightKey) (scanSub (tryDim widthKey) s.data)⟩

/-- The width-deleting single pass on its own. -/
def stripWidthBlocks (s : String) : String := ⟨scanSub (tryDim widthKey) s.data⟩

/-- The height-deleting single pass on its own. -/
def stripHeightBlocks (s : String) : String := ⟨scanSub (tryDim heightKey) s.data⟩

/-! ### The figure synthesizer (`parse_figures_for_jats`)

Pattern (with DOTALL):
`(<p[^>]*>\s*<bold[^>]*>Figure\s+\d+</bold>\s*</p>)\s*`
`(<p[^>]*>\s*<inline-graphic[^>]*>.*?</inline-graphic>([^<]*)</p>)`.
The replacement callback re-searches the captured paragraphs for the label
and the image attributes, and synthesizes a `<fig>` element with six freshly
generated identifiers.  `uuid.uuid4().hex[:24]` is modelled by an identifier
supply `gen : Nat → String` indexed by the number of draws made so far. -/

/-- Scan for the first position where a deterministic sub-matcher succeeds
(Python `re.search`). -/
def searchFirst {α : Type} (t : List Char → Option α) : List Char → Option α
  | [] => none
  | c :: cs =>
    match t (c :: cs) with
    | some g => some g
    | none => searchFirst t cs

/-- Matcher for `<bold[^>]*>(Figure\s+\d+)</bold>` at one position, returning
group 1. -/
def tryLabelAt (s : List Char) : Option (List Char) := do
  let s1 ← expectL ("<bold".data) s
  let (_, s2) := takeRun (· != '>') s1
  let s3 ← expectL ['>'] s2
  let s4 ← expectL ("Figure".data) s3
  let (w, s5) := takeRun isWs s4
  if w = [] then none else do
  let (d, s6) := takeRun (fun c => c.isDigit) s5
  if d = [] then none else do
  let _ ← expectL ("</bold>".data) s6
  some ("Figure".data ++ w ++ d)

/-- Matcher for `LIT([^"]+)"` at one position (used with literals ending in a
double quote, i.e. `xlink:href="` and `mime-subtype="`), returning group 1. -/
def tryAttrAt (lit : List Char) (s : List Char) : Option (List Char) := do
  let s1 ← expectL lit s
  let (q, s2) := takeRun (· != '"') s1
  if q = [] then none else do
  let _ ← expectL ['"'] s2
  some q

def closeIG : List Char := "</inline-graphic>".data
def closePara : List Char := "</p>".data

/-- Parse `.*?</inline-graphic>([^<]*)</p>`: lazy dot extends one character
at a time until `</inline-graphic>` followed by a successful caption parse is
found; returns (dot text, caption group, remainder). -/
def tryGraphicTail : List Char → Option (List Char × List Char × List Char)
  | [] => none
  | c :: cs =>
    match
      (match expectL closeIG (c :: cs) with
       | some s1 =>
         let (cap, s2) := takeRun (· != '<') s1
         (match expectL closePara s2 with
          | some rest => some (([] : List Char), cap, rest)
          | none => none)
       | none => none) with
    | some r => some r
    | none =>
      match tryGraphicTail cs with
      | some (d, cap, r) => some (c :: d, cap, r)
      | none => none

/-- Parse group 1, `<p[^>]*>\\s*<bold[^>]*>Figure\\s+\\d+</bold>\\s*</p>`;
return the matched text and the remainder. -/
def tryFigLabelPara (s : List Char) : Option (List Char × List Char) := do
  let s1 ← expectL ("<p".data) s
  let pr1 := takeRun (· != '>') s1
  let s3 ← expectL ['>'] pr1.2
  let pr2 := takeRun isWs s3
  let s5 ← expectL ("<bold".data) pr2.2
  let pr3 := takeRun (· != '>') s5
  let s7 ← expectL ['>'] pr3.2
  let s8 ← expectL ("Figure".data) s7
  let pr4 := takeRun isWs s8
  if pr4.1 = [] then none else do
  let pr5 := takeRun (fun c => c.isDigit) pr4.2
  if pr5.1 = [] then none else do
  let s11 ← expectL ("</bold>".data) pr5.2
  let pr6 := takeRun isWs s11
  let s13 ← expectL closePara pr6.2
  some ("<p".data ++ pr1.1 ++ '>' :: pr2.1 ++ "<bold".data ++ pr3.1 ++ '>' :: "Figure".data
    ++ pr4.1 ++ pr5.1 ++ "</bold>".data ++ pr6.1 ++ closePara, s13)

/-- Parse group 2, `<p[^>]*>\\s*<inline-graphic[^>]*>.*?</inline-graphic>([^<]*)</p>`;
return the matched text, the caption group, and the remainder. -/
def tryFigImagePara (s : List Char) : Option (List Char × List Char × List Char) := do
  let s1 ← expectL ("<p".data) s
  let pr1 := takeRun (· != '>') s1
  let s3 ← expectL ['>'] pr1.2
  let pr2 := takeRun isWs s3
  let s5 ← expectL ("<inline-graphic".data) pr2.2
  let pr3 := takeRun (· != '>') s5
  let s7 ← expectL ['>'] pr3.2
  let dcr ← tryGraphicTail s7
  some ("<p".data ++ pr1.1 ++ '>' :: pr2.1 ++ "<inline-graphic".data ++ pr3.1 ++ '>' :: dcr.1
    ++ closeIG ++ dcr.2.1 ++ closePara, dcr.2.1, dcr.2.2)

/-- Matcher for the whole two-paragraph figure pattern at one position,
returning (group 1, group 2, group 3, remainder). -/
def tryFig (s : List Char) : Option (List Char × List Char × List Char × List Char) := do
  let g1r ← tryFigLabelPara s
  let mid := takeRun isWs g1r.2
  let g2cr ← tryFigImagePara mid.2
  some (g1r.1, g2cr.1, g2cr.2.1, g2cr.2.2)

/-- The replacement callback `replace_figure`: extract label/href/mime from
the captured groups (with documented defaults), draw six identifiers, and
build the JATS figure element. -/
def replaceFigure (gen : Nat → String) (k : Nat) (g1 g2 g3 : List Char) : List Char :=
  let label := match searchFirst tryLabelAt g1 with
    | some l => l
    | none => "Figure".data
  let href := match searchFirst (tryAttrAt ("xlink:href=\"".data)) g2 with
    | some h => h
    | none => "image.png".data
  let mime := match searchFirst (tryAttrAt ("mime-subtype=\"".data)) g2 with
    | some m => m
    | none => "png".data
  let cap := pyStripL g3
  let figId := "fig-".data ++ (gen k).data
  let objectId := "object-id-".data ++ (gen (k + 1)).data
  let captionId := "caption-".data ++ (gen (k + 2)).data
  let titleId := "title-".data ++ (gen (k + 3)).data
  let pId := "p-".data ++ (gen (k + 4)).data
  let graphicId := "graphic-".data ++ (gen (k + 5)).data
  "<fig id=\"".data ++ figId
    ++ "\">\n        <object-id id=\"".data ++ objectId ++ '\"' :: '>' :: figId
    ++ "</object-id>\n        <label>".data ++ label
    ++ "</label>\n        <caption id=\"".data ++ captionId
    ++ "\">\n          <title id=\"".data ++ titleId
    ++ "\" />\n          <p id=\"".data ++ pId ++ '\"' :: '>' :: cap
    ++ "</p>\n        </caption>\n        <graphic id=\"".data ++ graphicId
    ++ "\" mime-subtype=\"".data ++ mime
    ++ "\" mimetype=\"image\" xlink:href=\"".data ++ href
    ++ "\" />\n      </fig>".data

/-- `re.sub` scan for the figure pattern, threading the identifier counter. -/
def scanFig (gen : Nat → String) : Nat → Nat → List Char → List Char
  | 0, _, s => s
  | _ + 1, _, [] => []
  | n + 1, k, c :: cs =>
    match tryFig (c :: cs) with
    | some (g1, g2, g3, t) => replaceFigure gen k g1 g2 g3 ++ scanFig gen n (k + 6) t
    | none => c :: scanFig gen n k cs

/-- Source `parse_figures_for_jats`, parameterized by the identifier supply. -/
def parse_figures_for_jats (gen : Nat → String) (s : String) : String :=
  ⟨scanFig gen s.data.length 0 s.data⟩

/-! ### The section wrapper (`wrap_body_content_in_sections`)

Pattern `(<body[^>]*>)(.*?)(</body>)` with DOTALL; the replacement callback
splits the body content on newlines and runs a two-state line machine that
wraps orphan lines in synthesized `<sec>` containers and injects identifiers
into unidentified section openers. -/

/-- Python substring test (`needle in haystack`). -/
def hasSub (pat : List Char) : List Char → Bool
  | [] => (expectL pat []).isSome
  | c :: cs => (expectL pat (c :: cs)).isSome || hasSub pat cs

/-- Python `needle in haystack` at the `String` level. -/
def containsS (pat s : String) : Bool := hasSub pat.data s.data

/-- Python `s.startswith(pre)`. -/
def startsWithL (pre l : List Char) : Bool := (expectL pre l).isSome

/-- Literal-match substitution step, for Python `str.replace`. -/
def litM (needle repl : List Char) (s : List Char) : Option (List Char × List Char) :=
  (expectL needle s).map fun t => (repl, t)

/-- Python `content.split('\n')`. -/
def splitNlL : List Char → List (List Char)
  | [] => [[]]
  | c :: cs =>
    if c = '\n' then [] :: splitNlL cs
    else
      match splitNlL cs with
      | [] => [[c]]
      | l :: ls => (c :: l) :: ls

/-- Python `'\n'.join(lines)`. -/
def joinNlL : List (List Char) → List Char
  | [] => []
  | [l] => l
  | l :: ls => l ++ '\n' :: joinNlL ls

/-- State of the line machine: emitted lines, pending orphan lines, whether
we are inside a section, and how many identifiers have been drawn. -/
structure WState where
  result : List (List Char)
  current : List (List Char)
  inSec : Bool
  ctr : Nat

/-- One generated section identifier (`heading-{uuid4().hex}`). -/
def secHeadingL (gen : Nat → String) (k : Nat) : List Char :=
  "heading-".data ++ (gen k).data

/-- The synthesized opening line used when flushing orphan lines. -/
def flushOpenL (gen : Nat → String) (k : Nat) : List Char :=
  "  <sec id=\"".data ++ secHeadingL gen k ++ "\">".data

/-- The synthesized closing line used when flushing orphan lines. -/
def flushCloseL : List Char := "  </sec>".data

/-- The identifier-injected opening line: Python
`line_stripped.replace('<sec', '<sec id="{section_id}"')`. -/
def injectIdL (gen : Nat → String) (k : Nat) (ls : List Char) : List Char :=
  scanSub (litM ("<sec".data) ("<sec id=\"".data ++ secHeadingL gen k ++ ['\"'])) ls

/-- One iteration of the body of the Python `for line in lines` loop. -/
def wrapStep (gen : Nat → String) (st : WState) (line : List Char) : WState :=
  let ls := pyStripL line
  if ls = [] then
    if st.current ≠ [] then { st with current := st.current ++ [line] } else st
  else if startsWithL ("<sec".data) ls then
    let st1 :=
      if st.current ≠ [] ∧ ¬st.inSec then
        { st with
          result := st.result ++ flushOpenL gen st.ctr :: st.current ++ [flushCloseL],
          current := [], ctr := st.ctr + 1 }
      else st
    let st2 :=
      if hasSub ("id=".data) ls then { st1 with result := st1.result ++ [line] }
      else { st1 with result := st1.result ++ [injectIdL gen st1.ctr ls], ctr := st1.ctr + 1 }
    { st2 with inSec := true, current := [] }
  else if startsWithL ("</sec>".data) ls then
    { st with result := st.result ++ [line], inSec := false, current := [] }
  else if st.inSec then { st with result := st.result ++ [line] }
  else { st with current := st.current ++ [line] }

/-- Run the line machine over the body lines and apply the final orphan
flush; returns the emitted lines and the new identifier counter. -/
def resultLines (gen : Nat → String) (k : Nat) (lines : List (List Char)) :
    List (List Char) × Nat :=
  let st := lines.foldl (wrapStep gen) ⟨[], [], false, k⟩
  if st.current ≠ [] ∧ ¬st.inSec then
    (st.result ++ flushOpenL gen st.ctr :: st.current ++ [flushCloseL], st.ctr + 1)
  else (st.result, st.ctr)

/-- The replacement callback `wrap_body_content`: body with whitespace-only
content is returned unchanged; otherwise the processed lines are re-joined
and framed by single newlines. -/
def wrapBodyMatch (gen : Nat → String) (k : Nat) (openT contentT closeT : List Char) :
    List Char × Nat :=
  if pyStripL contentT = [] then (openT ++ contentT ++ closeT, k)
  else
    let lk := resultLines gen k (splitNlL contentT)
    (openT ++ '\n' :: joinNlL lk.1 ++ '\n' :: closeT, lk.2)

def bodyOpenLit : List Char := "<body".data
def bodyCloseLit : List Char := "</body>".data

/-- Split at the first occurrence of a literal (`.*?LIT`), returning the text
before the literal and the remainder after it. -/
def splitFirst (lit : List Char) : List Char → Option (List Char × List Char)
  | [] => none
  | c :: cs =>
    match expectL lit (c :: cs) with
    | some t => some ([], t)
    | none =>
      match splitFirst lit cs with
      | some (a, b) => some (c :: a, b)
      | none => none

/-- Matcher for `(<body[^>]*>)(.*?)(</body>)`, returning (group 1, group 2,
remainder); group 3 is the constant `</body>`. -/
def tryBody (s : List Char) : Option (List Char × List Char × List Char) := do
  let s1 ← expectL bodyOpenLit s
  let (attrs, s2) := takeRun (· != '>') s1
  let s3 ← expectL ['>'] s2
  let (inner, s4) ← splitFirst bodyCloseLit s3
  some (bodyOpenLit ++ attrs ++ ['>'], inner, s4)

/-- `re.sub` scan for the body pattern, threading the identifier counter. -/
def scanBody (gen : Nat → String) : Nat → Nat → List Char → List Char
  | 0, _, s => s
  | _ + 1, _, [] => []
  | n + 1, k, c :: cs =>
    match tryBody (c :: cs) with
    | some (o, inner, t) =>
      let rk := wrapBodyMatch gen k o inner bodyCloseLit
      rk.1 ++ scanBody gen n rk.2 t
    | none => c :: scanBody gen n k cs

/-- Source `wrap_body_content_in_sections`, parameterized by the identifier
supply. -/
def wrap_body_content_in_sections (gen : Nat → String) (s : String) : String :=
  ⟨scanBody gen s.data.length 0 s.data⟩

/-- One single-application bold-merge rule, as a whole-buffer pass. -/
def applyBoldRule (m : List Char → Option (List Char × List Char)) (s : String) : String :=
  ⟨scanSub m s.data⟩

/-- Source `fix_split_bold_formatting`: the five merge rules, each applied
exactly once, in the fixed order pattern1 .. pattern5. -/
def fix_split_bold_formatting (s : String) : String :=
  ⟨scanSub tryP5 (scanSub tryP4 (scanSub tryP3 (scanSub tryP2 (scanSub tryP1 s.data))))⟩

/-- A concrete identifier supply used to instantiate theorems whose statement
is parametric in the supply. -/
def idStub (n : Nat) : String := ⟨List.replicate n 'x'⟩

/-! ## Basic lemmas about the parsing combinators -/

theorem takeRun_cons_pos {p : Char → Bool} {c : Char} (l : List Char) (h : p c = true) :
    takeRun p (c :: l) = ((takeRun p l).1.cons c, (takeRun p l).2) := by
  simp [takeRun, h]

theorem takeRun_cons_neg {p : Char → Bool} {c : Char} (l : List Char) (h : p c = false) :
    takeRun p (c :: l) = ([], c :: l) := by
  simp [takeRun, h]

theorem takeRun_append_eq (p : Char → Bool) (l : List Char) :
    (takeRun p l).1 ++ (takeRun p l).2 = l := by
  induction l with
  | nil => rfl
  | cons c cs ih =>
    by_cases h : p c = true
    · simp [takeRun, h, ih]
    · simp [takeRun, Bool.eq_false_iff.mpr h]

theorem takeRun_fst_all (p : Char → Bool) (l : List Char) :
    ∀ c ∈ (takeRun p l).1, p c = true := by
  induction l with
  | nil => simp [takeRun]
  | cons c cs ih =>
    by_cases h : p c = true
    · simp only [takeRun_cons_pos cs h]
      intro d hd
      rcases List.mem_cons.mp hd with h1 | h1
      · exact h1 ▸ h
      · exact ih d h1
    · simp [takeRun_cons_neg cs (Bool.eq_false_iff.mpr h)]

theorem takeRun_append_all {p : Char → Bool} {a : List Char} {b : Char} (rest : List Char)
    (h1 : ∀ c ∈ a, p c = true) (h2 : p b = false) :
    takeRun p (a ++ b :: rest) = (a, b :: rest) := by
  induction a with
  | nil => simpa using takeRun_cons_neg rest h2
  | cons c cs ih =>
    have hc : p c = true := h1 c (List.mem_cons_self c cs)
    have := ih fun d hd => h1 d (List.mem_cons_of_mem c hd)
    simp [takeRun_cons_pos _ hc, this]

theorem expectL_some_eq : ∀ {lit s t : List Char}, expectL lit s = some t → s = lit ++ t := by
  intro lit
  induction lit with
  | nil => intro s t h; simpa [expectL] using h
  | cons c cs ih =>
    intro s t h
    cases s with
    | nil => simp [expectL] at h
    | cons d ds =>
      by_cases hcd : c = d
      · subst hcd
        simp only [expectL, if_pos rfl] at h
        simpa using ih h
      · simp [expectL, hcd] at h

theorem expectL_append (lit rest : List Char) : expectL lit (lit ++ rest) = some rest := by
  induction lit with
  | nil => rfl
  | cons c cs ih => simp [expectL, ih]

theorem expectL_ne_of_head {c d : Char} (cs ds : List Char) (h : c ≠ d) :
    expectL (c :: cs) (d :: ds) = none := by
  simp [expectL, h]

theorem length_dropWhile_le (p : Char → Bool) (l : List Char) :
    (l.dropWhile p).length ≤ l.length :=
  List.IsSuffix.length_le (List.dropWhile_suffix p)

theorem pyStripL_length_le (l : List Char) : (pyStripL l).length ≤ l.length := by
  unfold pyStripL
  calc ((l.dropWhile isWs).reverse.dropWhile isWs).reverse.length
      = ((l.dropWhile isWs).reverse.dropWhile isWs).length := List.length_reverse _
    _ ≤ (l.dropWhile isWs).reverse.length := length_dropWhile_le _ _
    _ = (l.dropWhile isWs).length := List.length_reverse _
    _ ≤ l.length := length_dropWhile_le _ _

theorem filter_dropWhile_isWs (P : Char → Bool) (hP : ∀ c, isWs c = true → P c = false) :
    ∀ l : List Char, (l.dropWhile isWs).filter P = l.filter P := by
  intro l
  induction l with
  | nil => rfl
  | cons c cs ih =>
    by_cases h : isWs c = true
    · simp [List.dropWhile_cons, h, ih, List.filter_cons, hP c h]
    · simp [List.dropWhile_cons, Bool.eq_false_iff.mpr h]

theorem filter_pyStripL (P : Char → Bool) (hP : ∀ c, isWs c = true → P c = false)
    (l : List Char) : (pyStripL l).filter P = l.filter P := by
  unfold pyStripL
  rw [List.filter_reverse, filter_dropWhile_isWs P hP, List.filter_reverse,
    List.reverse_reverse, filter_dropWhile_isWs P hP]

/-! ## Lemmas about the substitution scanner -/

theorem scanGo_id_or_shrink (m : List Char → Option (List Char × List Char))
    (hm : ∀ s r t, m s = some (r, t) → r.length + t.length < s.length) :
    ∀ n s, scanGo m n s = s ∨ (scanGo m n s).length < s.length := by
  intro n
  induction n with
  | zero => intro s; exact Or.inl rfl
  | succ n ih =>
    intro s
    cases s with
    | nil => exact Or.inl rfl
    | cons c cs =>
      cases hE : m (c :: cs) with
      | some rt =>
        right
        have hlt := hm _ _ _ (by rw [hE])
        have : (scanGo m n rt.2).length ≤ rt.2.length := by
          rcases ih rt.2 with h | h
          · exact le_of_eq (by rw [h])
          · exact le_of_lt h
        calc (scanGo m (n + 1) (c :: cs)).length
            = (rt.1 ++ scanGo m n rt.2).length := by simp [scanGo, hE]
          _ = rt.1.length + (scanGo m n rt.2).length := List.length_append _ _
          _ ≤ rt.1.length + rt.2.length := by omega
          _ < (c :: cs).length := hlt
      | none =>
        have hrec := ih cs
        rcases hrec with h | h
        · left; simp [scanGo, hE, h]
        · right
          have : scanGo m (n + 1) (c :: cs) = c :: scanGo m n cs := by simp [scanGo, hE]
          rw [this]
          simpa using Nat.succ_lt_succ h

theorem scanGo_filter (P : Char → Bool) (m : List Char → Option (List Char × List Char))
    (hm : ∀ s r t, m s = some (r, t) → ∃ pre, s = pre ++ t ∧ r.filter P = pre.filter P) :
    ∀ n s, (scanGo m n s).filter P = s.filter P := by
  intro n
  induction n with
  | zero => intro s; rfl
  | succ n ih =>
    intro s
    cases s with
    | nil => rfl
    | cons c cs =>
      cases hE : m (c :: cs) with
      | some rt =>
        obtain ⟨pre, hs, hf⟩ := hm _ _ _ (by rw [hE] : m (c :: cs) = some (rt.1, rt.2))
        have : scanGo m (n + 1) (c :: cs) = rt.1 ++ scanGo m n rt.2 := by simp [scanGo, hE]
        rw [this, List.filter_append, hf, ih, hs, List.filter_append]
      | none =>
        have : scanGo m (n + 1) (c :: cs) = c :: scanGo m n cs := by simp [scanGo, hE]
        rw [this, List.filter_cons, List.filter_cons, ih]

/-! ## Lemmas about the fixed-point loop -/

theorem loopFuel_fix (f : List Char → List Char)
    (hf : ∀ s, f s = s ∨ (f s).length < s.length) :
    ∀ n s, s.length < n → f (loopFuel f n s) = loopFuel f n s := by
  intro n
  induction n with
  | zero => intro s h; omega
  | succ n ih =>
    intro s h
    by_cases he : f s = s
    · simp [loopFuel, he]
    · have hlt : (f s).length < s.length := (hf s).resolve_left he
      have : loopFuel f (n + 1) s = loopFuel f n (f s) := by simp [loopFuel, he]
      rw [this]
      exact ih (f s) (by omega)

theorem pyLoop_fix (f : List Char → List Char)
    (hf : ∀ s, f s = s ∨ (f s).length < s.length) (s : List Char) :
    f (pyLoop f s) = pyLoop f s :=
  loopFuel_fix f hf (s.length + 1) s (Nat.lt_succ_self _)

theorem loopFuel_succ (f : List Char → List Char) (n : Nat) (s : List Char) :
    loopFuel f (n + 1) s = if f s = s then s else loopFuel f n (f s) := rfl

theorem pyLoop_idem (f : List Char → List Char)
    (hf : ∀ s, f s = s ∨ (f s).length < s.length) (s : List Char) :
    pyLoop f (pyLoop f s) = pyLoop f s := by
  have hfix := pyLoop_fix f hf s
  rw [pyLoop, loopFuel_succ, if_pos hfix]

theorem loopFuel_filter (P : Char → Bool) (f : List Char → List Char)
    (hf : ∀ s, (f s).filter P = s.filter P) :
    ∀ n s, (loopFuel f n s).filter P = s.filter P := by
  intro n
  induction n with
  | zero => intro s; rfl
  | succ n ih =>
    intro s
    by_cases he : f s = s
    · simp [loopFuel, he]
    · have : loopFuel f (n + 1) s = loopFuel f n (f s) := by simp [loopFuel, he]
      rw [this, ih, hf]

/-! ## Inversion lemmas for the emphasis matchers -/

theorem tryU_some {s r t : List Char} (h : tryU s = some (r, t)) :
    ∃ t1 w t2, s = '_' :: (t1 ++ '_' :: (w ++ '_' :: (t2 ++ '_' :: t))) ∧
      r = '_' :: (pyStripL t1 ++ ' ' :: (pyStripL t2 ++ ['_'])) ∧
      t1 ≠ [] ∧ w ≠ [] ∧ (∀ c ∈ w, isWs c = true) := by
  unfold tryU at h
  cases hE1 : expectL ['_'] s with
  | none => rw [hE1] at h; simp at h
  | some s1 =>
    rw [hE1] at h
    simp only [Option.bind_eq_bind, Option.some_bind] at h
    obtain ⟨t1, s2, hT1⟩ : ∃ a b, takeRun (· != '_') s1 = (a, b) := ⟨_, _, rfl⟩
    rw [hT1] at h
    by_cases h1 : t1 = []
    · simp [h1] at h
    · rw [if_neg h1] at h
      cases hE2 : expectL ['_'] s2 with
      | none => rw [hE2] at h; simp at h
      | some s3 =>
        rw [hE2] at h
        simp only [Option.bind_eq_bind, Option.some_bind] at h
        obtain ⟨w, s4, hT2⟩ : ∃ a b, takeRun isWs s3 = (a, b) := ⟨_, _, rfl⟩
        rw [hT2] at h
        by_cases h2 : w = []
        · simp [h2] at h
        · rw [if_neg h2] at h
          cases hE3 : expectL ['_'] s4 with
          | none => rw [hE3] at h; simp at h
          | some s5 =>
            rw [hE3] at h
            simp only [Option.bind_eq_bind, Option.some_bind] at h
            obtain ⟨t2, s6, hT3⟩ : ∃ a b, takeRun (· != '_') s5 = (a, b) := ⟨_, _, rfl⟩
            rw [hT3] at h
            by_cases h3 : t2 = []
            · simp [h3] at h
            · rw [if_neg h3] at h
              cases hE4 : expectL ['_'] s6 with
              | none => rw [hE4] at h; simp at h
              | some s7 =>
                rw [hE4] at h
                simp only [Option.bind_eq_bind, Option.some_bind, Option.some.injEq,
                  Prod.mk.injEq] at h
                obtain ⟨hr, ht⟩ := h
                refine ⟨t1, w, t2, ?_, ?_, h1, h2, ?_⟩
                · have e1 := expectL_some_eq hE1
                  have e2 := expectL_some_eq hE2
                  have e3 := expectL_some_eq hE3
                  have e4 := expectL_some_eq hE4
                  have q1 : t1 ++ s2 = s1 := by rw [← takeRun_append_eq (· != '_') s1, hT1]
                  have q2 : w ++ s4 = s3 := by rw [← takeRun_append_eq isWs s3, hT2]
                  have q3 : t2 ++ s6 = s5 := by rw [← takeRun_append_eq (· != '_') s5, hT3]
                  subst ht
                  simp [e1, ← q1, e2, ← q2, e3, ← q3, e4]
                · rw [← hr]; simp
                · intro c hc
                  have := takeRun_fst_all isWs s3
                  rw [hT2] at this
                  exact this c hc

theorem tryS_some {prev : Option Char} {s r t : List Char} (h : tryS prev s = some (r, t)) :
    ∃ t1 w t2, s = '*' :: (t1 ++ '*' :: (w ++ '*' :: (t2 ++ '*' :: t))) ∧
      r = '*' :: (pyStripL t1 ++ ' ' :: (pyStripL t2 ++ ['*'])) ∧
      t1 ≠ [] ∧ w ≠ [] ∧ (∀ c ∈ w, isWs c = true) := by
  unfold tryS at h
  by_cases hp : prev = some '*'
  · simp [hp] at h
  · rw [if_neg hp] at h
    cases hE1 : expectL ['*'] s with
    | none => rw [hE1] at h; simp at h
    | some s1 =>
      rw [hE1] at h
      simp only [Option.bind_eq_bind, Option.some_bind] at h
      obtain ⟨t1, s2, hT1⟩ : ∃ a b, takeRun (· != '*') s1 = (a, b) := ⟨_, _, rfl⟩
      rw [hT1] at h
      by_cases h1 : t1 = []
      · simp [h1] at h
      · rw [if_neg h1] at h
        cases hE2 : expectL ['*'] s2 with
        | none => rw [hE2] at h; simp at h
        | some s3 =>
          rw [hE2] at h
          simp only [Option.bind_eq_bind, Option.some_bind] at h
          by_cases hh1 : s3.head? = some '*'
          · simp [hh1] at h
          · rw [if_neg hh1] at h
            obtain ⟨w, s4, hT2⟩ : ∃ a b, takeRun isWs s3 = (a, b) := ⟨_, _, rfl⟩
            rw [hT2] at h
            by_cases h2 : w = []
            · simp [h2] at h
            · rw [if_neg h2] at h
              cases hE3 : expectL ['*'] s4 with
              | none => rw [hE3] at h; simp at h
              | some s5 =>
                rw [hE3] at h
                simp only [Option.bind_eq_bind, Option.some_bind] at h
                obtain ⟨t2, s6, hT3⟩ : ∃ a b, takeRun (· != '*') s5 = (a, b) := ⟨_, _, rfl⟩
                rw [hT3] at h
                by_cases h3 : t2 = []
                · simp [h3] at h
                · rw [if_neg h3] at h
                  cases hE4 : expectL ['*'] s6 with
                  | none => rw [hE4] at h; simp at h
                  | some s7 =>
                    rw [hE4] at h
                    simp only [Option.bind_eq_bind, Option.some_bind] at h
                    by_cases hh2 : s7.head? = some '*'
                    · simp [hh2] at h
                    · rw [if_neg hh2] at h
                      simp only [Option.some.injEq, Prod.mk.injEq] at h
                      obtain ⟨hr, ht⟩ := h
                      refine ⟨t1, w, t2, ?_, ?_, h1, h2, ?_⟩
                      · have e1 := expectL_some_eq hE1
                        have e2 := expectL_some_eq hE2
                        have e3 := expectL_some_eq hE3
                        have e4 := expectL_some_eq hE4
                        have q1 : t1 ++ s2 = s1 := by
                          rw [← takeRun_append_eq (· != '*') s1, hT1]
                        have q2 : w ++ s4 = s3 := by rw [← takeRun_append_eq isWs s3, hT2]
                        have q3 : t2 ++ s6 = s5 := by
                          rw [← takeRun_append_eq (· != '*') s5, hT3]
                        subst ht
                        simp [e1, ← q1, e2, ← q2, e3, ← q3, e4]
                      · rw [← hr]; simp
                      · intro c hc
                        have := takeRun_fst_all isWs s3
                        rw [hT2] at this
                        exact this c hc

theorem tryBoldPair_some {o1 c1 o2 c2 rr s r t : List Char}
    (h : tryBoldPair o1 c1 o2 c2 rr s = some (r, t)) :
    ∃ t1 w t2, s = o1 ++ (t1 ++ (c1 ++ (w ++ (o2 ++ (t2 ++ (c2 ++ t)))))) ∧
      r = rr ++ (pyStripL t1 ++ ' ' :: (pyStripL t2 ++ rr)) ∧
      t1 ≠ [] ∧ t2 ≠ [] ∧ (∀ c ∈ w, isWs c = true) := by
  unfold tryBoldPair at h
  cases hE1 : expectL o1 s with
  | none => rw [hE1] at h; simp at h
  | some s1 =>
    rw [hE1] at h
    simp only [Option.bind_eq_bind, Option.some_bind] at h
    obtain ⟨t1, s2, hT1⟩ : ∃ a b, takeRun (· != '*') s1 = (a, b) := ⟨_, _, rfl⟩
    rw [hT1] at h
    by_cases h1 : t1 = []
    · simp [h1] at h
    · rw [if_neg h1] at h
      cases hE2 : expectL c1 s2 with
      | none => rw [hE2] at h; simp at h
      | some s3 =>
        rw [hE2] at h
        simp only [Option.bind_eq_bind, Option.some_bind] at h
        obtain ⟨w, s4, hT2⟩ : ∃ a b, takeRun isWs s3 = (a, b) := ⟨_, _, rfl⟩
        rw [hT2] at h
        cases hE3 : expectL o2 s4 with
        | none => rw [hE3] at h; simp at h
        | some s5 =>
          rw [hE3] at h
          simp only [Option.bind_eq_bind, Option.some_bind] at h
          obtain ⟨t2, s6, hT3⟩ : ∃ a b, takeRun (· != '*') s5 = (a, b) := ⟨_, _, rfl⟩
          rw [hT3] at h
          by_cases h3 : t2 = []
          · simp [h3] at h
          · rw [if_neg h3] at h
            cases hE4 : expectL c2 s6 with
            | none => rw [hE4] at h; simp at h
            | some s7 =>
              rw [hE4] at h
              simp only [Option.bind_eq_bind, Option.some_bind, Option.some.injEq,
                Prod.mk.injEq] at h
              obtain ⟨hr, ht⟩ := h
              refine ⟨t1, w, t2, ?_, ?_, h1, h3, ?_⟩
              · have e1 := expectL_some_eq hE1
                have e2 := expectL_some_eq hE2
                have e3 := expectL_some_eq hE3
                have e4 := expectL_some_eq hE4
                have q1 : t1 ++ s2 = s1 := by rw [← takeRun_append_eq (· != '*') s1, hT1]
                have q2 : w ++ s4 = s3 := by rw [← takeRun_append_eq isWs s3, hT2]
                have q3 : t2 ++ s6 = s5 := by rw [← takeRun_append_eq (· != '*') s5, hT3]
                subst ht
                simp [e1, ← q1, e2, ← q2, e3, ← q3, e4]
              · rw [← hr]; simp
              · intro c hc
                have := takeRun_fst_all isWs s3
                rw [hT2] at this
                exact this c hc

/-! ## Shrinking and content-preservation consequences -/

theorem tryU_shrink : ∀ s r t, tryU s = some (r, t) → r.length + t.length < s.length := by
  intro s r t h
  obtain ⟨t1, w, t2, hs, hr, _, h2, _⟩ := tryU_some h
  have l1 := pyStripL_length_le t1
  have l2 := pyStripL_length_le t2
  have hw : 1 ≤ w.length := List.length_pos.mpr h2
  subst hs hr
  simp only [List.length_append, List.length_cons, List.length_nil]
  omega

theorem tryS_shrink : ∀ prev s r t, tryS prev s = some (r, t) →
    r.length + t.length < s.length := by
  intro prev s r t h
  obtain ⟨t1, w, t2, hs, hr, _, h2, _⟩ := tryS_some h
  have l1 := pyStripL_length_le t1
  have l2 := pyStripL_length_le t2
  have hw : 1 ≤ w.length := List.length_pos.mpr h2
  subst hs hr
  simp only [List.length_append, List.length_cons, List.length_nil]
  omega

theorem tryU_filter (P : Char → Bool) (hP : ∀ c, isWs c = true → P c = false)
    (hU : P '_' = false) :
    ∀ s r t, tryU s = some (r, t) → ∃ pre, s = pre ++ t ∧ r.filter P = pre.filter P := by
  intro s r t h
  obtain ⟨t1, w, t2, hs, hr, _, _, hw⟩ := tryU_some h
  refine ⟨'_' :: (t1 ++ '_' :: (w ++ '_' :: (t2 ++ ['_']))), ?_, ?_⟩
  · rw [hs]; simp
  · have fw : w.filter P = [] := by
      rw [List.filter_eq_nil_iff]
      intro c hc
      simp [hP c (hw c hc)]
    rw [hr]
    simp [List.filter_append, List.filter_cons, hU, fw, filter_pyStripL P hP,
      hP ' ' (by decide)]

theorem tryS_filter (P : Char → Bool) (hP : ∀ c, isWs c = true → P c = false)
    (hStar : P '*' = false) :
    ∀ prev s r t, tryS prev s = some (r, t) →
      ∃ pre, s = pre ++ t ∧ r.filter P = pre.filter P := by
  intro prev s r t h
  obtain ⟨t1, w, t2, hs, hr, _, _, hw⟩ := tryS_some h
  refine ⟨'*' :: (t1 ++ '*' :: (w ++ '*' :: (t2 ++ ['*']))), ?_, ?_⟩
  · rw [hs]; simp
  · have fw : w.filter P = [] := by
      rw [List.filter_eq_nil_iff]
      intro c hc
      simp [hP c (hw c hc)]
    rw [hr]
    simp [List.filter_append, List.filter_cons, hStar, fw, filter_pyStripL P hP,
      hP ' ' (by decide)]

theorem tryBoldPair_filter (P : Char → Bool) (hP : ∀ c, isWs c = true → P c = false)
    (hStar : P '*' = false) {o1 c1 o2 c2 rr : List Char}
    (ho1 : ∀ c ∈ o1, c = '*') (hc1 : ∀ c ∈ c1, c = '*') (ho2 : ∀ c ∈ o2, c = '*')
    (hc2 : ∀ c ∈ c2, c = '*') (hrr : ∀ c ∈ rr, c = '*') :
    ∀ s r t, tryBoldPair o1 c1 o2 c2 rr s = some (r, t) →
      ∃ pre, s = pre ++ t ∧ r.filter P = pre.filter P := by
  intro s r t h
  obtain ⟨t1, w, t2, hs, hr, _, _, hw⟩ := tryBoldPair_some h
  have fstar : ∀ l : List Char, (∀ c ∈ l, c = '*') → l.filter P = [] := by
    intro l hl
    rw [List.filter_eq_nil_iff]
    intro c hc
    simp [hl c hc, hStar]
  have fw : w.filter P = [] := by
    rw [List.filter_eq_nil_iff]
    intro c hc
    simp [hP c (hw c hc)]
  refine ⟨o1 ++ (t1 ++ (c1 ++ (w ++ (o2 ++ (t2 ++ c2))))), ?_, ?_⟩
  · rw [hs]; simp
  · rw [hr]
    simp [List.filter_append, List.filter_cons, fstar o1 ho1, fstar c1 hc1, fstar o2 ho2,
      fstar c2 hc2, fstar rr hrr, fw, filter_pyStripL P hP, hP ' ' (by decide)]

/-! ## The asterisk scanner lemmas (look-behind variant of `scanGo`) -/

theorem scanSGo_id_or_shrink :
    ∀ n prev s, scanSGo n prev s = s ∨ (scanSGo n prev s).length < s.length := by
  intro n
  induction n with
  | zero => intro prev s; exact Or.inl rfl
  | succ n ih =>
    intro prev s
    cases s with
    | nil => exact Or.inl rfl
    | cons c cs =>
      cases hE : tryS prev (c :: cs) with
      | some rt =>
        right
        have hlt := tryS_shrink prev _ rt.1 rt.2 (by rw [hE])
        have : (scanSGo n (some '*') rt.2).length ≤ rt.2.length := by
          rcases ih (some '*') rt.2 with h | h
          · exact le_of_eq (by rw [h])
          · exact le_of_lt h
        calc (scanSGo (n + 1) prev (c :: cs)).length
            = (rt.1 ++ scanSGo n (some '*') rt.2).length := by simp [scanSGo, hE]
          _ = rt.1.length + (scanSGo n (some '*') rt.2).length := List.length_append _ _
          _ ≤ rt.1.length + rt.2.length := by omega
          _ < (c :: cs).length := hlt
      | none =>
        rcases ih (some c) cs with h | h
        · left; simp [scanSGo, hE, h]
        · right
          have : scanSGo (n + 1) prev (c :: cs) = c :: scanSGo n (some c) cs := by
            simp [scanSGo, hE]
          rw [this]
          simpa using Nat.succ_lt_succ h

theorem scanSGo_filter (P : Char → Bool)
    (hm : ∀ prev s r t, tryS prev s = some (r, t) →
      ∃ pre, s = pre ++ t ∧ r.filter P = pre.filter P) :
    ∀ n prev s, (scanSGo n prev s).filter P = s.filter P := by
  intro n
  induction n with
  | zero => intro prev s; rfl
  | succ n ih =>
    intro prev s
    cases s with
    | nil => rfl
    | cons c cs =>
      cases hE : tryS prev (c :: cs) with
      | some rt =>
        obtain ⟨pre, hs, hf⟩ := hm prev _ rt.1 rt.2 (by rw [hE])
        have : scanSGo (n + 1) prev (c :: cs) = rt.1 ++ scanSGo n (some '*') rt.2 := by
          simp [scanSGo, hE]
        rw [this, List.filter_append, hf, ih, hs, List.filter_append]
      | none =>
        have : scanSGo (n + 1) prev (c :: cs) = c :: scanSGo n (some c) cs := by
          simp [scanSGo, hE]
        rw [this, List.filter_cons, List.filter_cons, ih]

/-! ## Derived whole-pass facts used by the claim theorems -/

theorem subUL_id_or_shrink (s : List Char) : subUL s = s ∨ (subUL s).length < s.length :=
  scanGo_id_or_shrink tryU tryU_shrink s.length s

theorem subSL_id_or_shrink (s : List Char) : subSL s = s ∨ (subSL s).length < s.length :=
  scanSGo_id_or_shrink s.length none s

/-- Characters that are neither whitespace nor an emphasis delimiter: the
textual content the emphasis-merge passes are expected to preserve. -/
def emphChar (c : Char) : Bool := !isWs c && c != '*' && c != '_'

theorem emphChar_ws {c : Char} (h : isWs c = true) : emphChar c = false := by
  simp [emphChar, h]

/-! ## Claim theorems -/

/-- C1: the bold-merge pass applies exactly the five single-application rules
(a)–(e) in fixed sequence; `"**a** **b**"` maps to `"**a b**"`.  The last two
conjuncts pin the single-application (non-iterated) reading: one pass leaves
`"**a b** **c**"` in the output for the three-run input, and a further
application of the pass would still change that buffer. -/
theorem bold_merge_five_single_passes :
    (∀ s : String, fix_split_bold_formatting s =
      applyBoldRule tryP5 (applyBoldRule tryP4 (applyBoldRule tryP3
        (applyBoldRule tryP2 (applyBoldRule tryP1 s))))) ∧
    fix_split_bold_formatting "**a** **b**" = "**a b**" ∧
    fix_split_bold_formatting "**a** **b** **c**" = "**a b** **c**" ∧
    fix_split_bold_formatting "**a b** **c**" = "**a b c**" :=
  ⟨fun _ => rfl, by decide, by decide, by decide⟩

/-- C2: the italic-consolidation pass is the underscore fixed-point loop
followed by the asterisk fixed-point loop, each loop genuinely reaching a
buffer its substitution no longer changes, and
`"_word1_ _word2_ _word3_"` maps to `"_word1 word2 word3_"`. -/
theorem italics_two_fixed_point_loops :
    (∀ s : String, consolidate_adjacent_italics s = loopAsterisk (loopUnderscore s)) ∧
    (∀ s : String, subUnderscore (loopUnderscore s) = loopUnderscore s) ∧
    (∀ s : String, subAsterisk (loopAsterisk s) = loopAsterisk s) ∧
    consolidate_adjacent_italics "_word1_ _word2_ _word3_" = "_word1 word2 word3_" := by
  refine ⟨fun _ => rfl, fun s => ?_, fun s => ?_, by decide⟩
  · exact congrArg String.mk (pyLoop_fix subUL subUL_id_or_shrink s.data)
  · exact congrArg String.mk (pyLoop_fix subSL subSL_id_or_shrink s.data)

/-- C3 counterexample: `consolidate_adjacent_italics` is not idempotent.  On
`"*_a_* *_b_*"` the asterisk loop produces `"*_a_ _b_*"`, whose new
underscore adjacency is only merged by a second application of the pass. -/
theorem consolidate_not_idempotent :
    consolidate_adjacent_italics (consolidate_adjacent_italics "*_a_* *_b_*") ≠
      consolidate_adjacent_italics "*_a_* *_b_*" := by decide

/-- C3 amended: each of the two fixed-point sub-loops of
`consolidate_adjacent_italics` is individually idempotent (the composed pass
is not, see the counterexample). -/
theorem italic_loops_individually_idempotent :
    (∀ s : String, loopUnderscore (loopUnderscore s) = loopUnderscore s) ∧
    (∀ s : String, loopAsterisk (loopAsterisk s) = loopAsterisk s) := by
  constructor
  · intro s
    exact congrArg String.mk (pyLoop_idem subUL subUL_id_or_shrink s.data)
  · intro s
    exact congrArg String.mk (pyLoop_idem subSL subSL_id_or_shrink s.data)

/-- C4: the dimension-stripping pass is exactly the width-block deletion
followed by the height-block deletion, and blocks carrying both keys, only a
width key, or only a height key are all removed; in particular
`"![x](img.png){width=\x22 3in\x22  height=\x22 2in\x22 }"` (without the spaces shown
here) maps to `"![x](img.png)"`. -/
theorem dimension_strip_two_sequential_passes :
    (∀ s : String, remove_image_dimensions s = stripHeightBlocks (stripWidthBlocks s)) ∧
    remove_image_dimensions "![x](img.png)\x7bwidth=\"3in\" height=\"2in\"\x7d" = "![x](img.png)" ∧
    remove_image_dimensions "![x](img.png)\x7bwidth=\"3in\"\x7d" = "![x](img.png)" ∧
    remove_image_dimensions "![x](img.png)\x7bheight=\"2in\"\x7d" = "![x](img.png)" :=
  ⟨fun _ => rfl, by decide, by decide, by decide⟩

/-- C9 amended: the emphasis-merge passes discard no character that is
neither whitespace nor an emphasis delimiter (the original invariant fails
for figure synthesis, see the counterexample). -/
theorem emphasis_merges_preserve_content :
    (∀ s : String, (fix_split_bold_formatting s).data.filter emphChar =
      s.data.filter emphChar) ∧
    (∀ s : String, (consolidate_adjacent_italics s).data.filter emphChar =
      s.data.filter emphChar) := by
  have hP : ∀ c, isWs c = true → emphChar c = false := fun c h => emphChar_ws h
  have hStar : emphChar '*' = false := by decide
  have hU : emphChar '_' = false := by decide
  have hAllStars2 : ∀ c ∈ stars2, c = '*' := by decide
  have hAllStars3 : ∀ c ∈ stars3, c = '*' := by decide
  have hAllStar1 : ∀ c ∈ ['*'], c = '*' := by decide
  have hb : ∀ (o1 c1 o2 c2 rr : List Char), (∀ c ∈ o1, c = '*') → (∀ c ∈ c1, c = '*') →
      (∀ c ∈ o2, c = '*') → (∀ c ∈ c2, c = '*') → (∀ c ∈ rr, c = '*') →
      ∀ s : List Char, (scanSub (tryBoldPair o1 c1 o2 c2 rr) s).filter emphChar =
        s.filter emphChar := by
    intro o1 c1 o2 c2 rr h1 h2 h3 h4 h5 s
    exact scanGo_filter emphChar _ (tryBoldPair_filter emphChar hP hStar h1 h2 h3 h4 h5)
      s.length s
  constructor
  · intro s
    show (scanSub tryP5 (scanSub tryP4 (scanSub tryP3 (scanSub tryP2
      (scanSub tryP1 s.data))))).filter emphChar = s.data.filter emphChar
    simp only [tryP1, tryP2, tryP3, tryP4, tryP5]
    rw [hb _ _ _ _ _ hAllStars3 hAllStars3 hAllStars3 hAllStar1 hAllStars3,
      hb _ _ _ _ _ hAllStars2 hAllStars2 hAllStars2 hAllStars2 hAllStars2,
      hb _ _ _ _ _ hAllStars2 hAllStars2 hAllStars3 hAllStars3 hAllStars3,
      hb _ _ _ _ _ hAllStars3 hAllStars3 hAllStars2 hAllStars2 hAllStars3,
      hb _ _ _ _ _ hAllStars3 hAllStars3 hAllStars3 hAllStars3 hAllStars3]
  · intro s
    show (pyLoop subSL (pyLoop subUL s.data)).filter emphChar = s.data.filter emphChar
    simp only [pyLoop]
    have hu : ∀ l : List Char, (subUL l).filter emphChar = l.filter emphChar := by
      intro l
      exact scanGo_filter emphChar tryU (tryU_filter emphChar hP hU) l.length l
    have hs : ∀ l : List Char, (subSL l).filter emphChar = l.filter emphChar := by
      intro l
      exact scanSGo_filter emphChar (tryS_filter emphChar hP hStar) l.length none l
    rw [loopFuel_filter emphChar subSL hs, loopFuel_filter emphChar subUL hu]

/-- Input exhibiting the C9 violation: the figure pattern matches even when
the inline-graphic element has inner text, and that text is absent from the
synthesized figure. -/
def figDiscardIn : String :=
  "<p><bold>Figure 1</bold></p>\n<p><inline-graphic>ALTTEXT</inline-graphic>cap</p>"

set_option maxRecDepth 20000 in
/-- C9 counterexample: figure synthesis discards the non-whitespace text
`ALTTEXT` that occurs inside the matched inline-image element, which is
neither a markup restructuring that preserves text content nor an
image-dimension deletion. -/
theorem figure_synthesis_discards_content :
    containsS "ALTTEXT" figDiscardIn = true ∧
    containsS "cap" (parse_figures_for_jats idStub figDiscardIn) = true ∧
    containsS "ALTTEXT" (parse_figures_for_jats idStub figDiscardIn) = false :=
  ⟨by decide, by decide, by decide⟩

/-- Body used for the C6 example: an orphan paragraph, an unidentified
section container with its content and closing line, and a second orphan
paragraph. -/
def secExampleIn : String :=
  "<body><p>orphan1</p>\n<sec>\n<title>X</title>\n</sec>\n<p>orphan2</p></body>"

/-- Expected C6 output: three sibling section containers in the original
order — the two orphan paragraphs freshly wrapped with generated identifiers
(first and third draw of the supply), the middle section kept with its
content and an injected identifier (second draw) — with no input line
dropped or duplicated. -/
def secExampleOut (gen : Nat → String) : String :=
  ⟨"<body>\n  <sec id=\"heading-".data ++ (gen 0).data
    ++ "\">\n<p>orphan1</p>\n  </sec>\n<sec id=\"heading-".data ++ (gen 1).data
    ++ "\">\n<title>X</title>\n</sec>\n  <sec id=\"heading-".data ++ (gen 2).data
    ++ "\">\n<p>orphan2</p>\n  </sec>\n</body>".data⟩

set_option maxRecDepth 4000 in
/-- C6: for every identifier supply, wrapping the example body produces
exactly three sibling sections in original order: the orphan paragraphs
freshly wrapped with generated identifiers, the middle section retaining its
original content with a freshly injected identifier, and no input line
dropped or duplicated. -/
theorem section_wrap_three_siblings (gen : Nat → String) :
    wrap_body_content_in_sections gen secExampleIn = secExampleOut gen := by
  refine congrArg String.mk ?_
  simp [secExampleIn, secExampleOut, scanBody, tryBody, bodyOpenLit, bodyCloseLit, expectL,
    takeRun, splitFirst, wrapBodyMatch, pyStripL, isWs, splitNlL, resultLines, wrapStep,
    startsWithL, hasSub, litM, injectIdL, secHeadingL, flushOpenL, flushCloseL, joinNlL,
    scanSub, scanGo, List.append_assoc]

/-- Body used for the C7 counterexample: a blank line inside an identified
section. -/
def blankDropIn : String := "<body>\n<sec id=\"x\">\n\n<p>t</p>\n</sec>\n</body>"

/-- What the wrapper actually produces from `blankDropIn`: the blank line
inside the section is gone. -/
def blankDropOut : String := "<body>\n<sec id=\"x\">\n<p>t</p>\n</sec>\n</body>"

/-- C7 counterexample: a blank line inside a section is not appended to the
pass-through output — it is dropped, so the output differs from the input
precisely by the lost blank line. -/
theorem blank_line_dropped_inside_section :
    wrap_body_content_in_sections idStub blankDropIn = blankDropOut ∧
    blankDropOut ≠ blankDropIn :=
  ⟨by decide, by decide⟩

/-- C7 amended: a blank line is appended to the orphan buffer exactly when
that buffer is already non-empty, and is otherwise dropped (in particular
every blank line inside a section is dropped, because the orphan buffer is
always empty there); a blank line never changes the emitted output lines,
the in-section flag, or the identifier counter — so it never triggers a
flush. -/
theorem blank_line_appends_only_nonempty_orphan (gen : Nat → String) (st : WState)
    (line : List Char) (h : pyStripL line = []) :
    wrapStep gen st line =
      (if st.current ≠ [] then { st with current := st.current ++ [line] } else st) ∧
    (wrapStep gen st line).result = st.result ∧
    (wrapStep gen st line).inSec = st.inSec ∧
    (wrapStep gen st line).ctr = st.ctr := by
  have h1 : wrapStep gen st line =
      if st.current ≠ [] then { st with current := st.current ++ [line] } else st := by
    simp [wrapStep, h]
  refine ⟨h1, ?_, ?_, ?_⟩ <;> rw [h1] <;> by_cases hc : st.current = [] <;> simp [hc]

/-- Witness for the C7 amended theorem at a concrete blank line and state. -/
theorem blank_line_appends_only_nonempty_orphan_witness :
    pyStripL (" ".data) = [] ∧
    (wrapStep idStub ⟨[], ["x".data], false, 0⟩ (" ".data) =
      (if (⟨[], ["x".data], false, 0⟩ : WState).current ≠ [] then
        { (⟨[], ["x".data], false, 0⟩ : WState) with
          current := (⟨[], ["x".data], false, 0⟩ : WState).current ++ [" ".data] }
       else ⟨[], ["x".data], false, 0⟩) ∧
     (wrapStep idStub ⟨[], ["x".data], false, 0⟩ (" ".data)).result =
       (⟨[], ["x".data], false, 0⟩ : WState).result ∧
     (wrapStep idStub ⟨[], ["x".data], false, 0⟩ (" ".data)).inSec =
       (⟨[], ["x".data], false, 0⟩ : WState).inSec ∧
     (wrapStep idStub ⟨[], ["x".data], false, 0⟩ (" ".data)).ctr =
       (⟨[], ["x".data], false, 0⟩ : WState).ctr) :=
  ⟨by decide,
   blank_line_appends_only_nonempty_orphan idStub ⟨[], ["x".data], false, 0⟩ (" ".data)
     (by decide)⟩

/-! ## Already-wrapped bodies (C8) -/

/-- Stripped-empty test for one line (Python `not line.strip()`). -/
def isBlankL (l : List Char) : Bool := (pyStripL l).isEmpty

/-- Section-opener test for one line (Python `line.strip().startswith('<sec')`). -/
def isOpenL (l : List Char) : Bool := startsWithL ("<sec".data) (pyStripL l)

/-- Section-closer test for one line. -/
def isCloseL (l : List Char) : Bool := startsWithL ("</sec>".data) (pyStripL l)

/-- Identifier-presence test for one line (Python `'id=' in line.strip()`). -/
def hasIdL (l : List Char) : Bool := hasSub ("id=".data) (pyStripL l)

/-- Lines allowed inside a section block: they neither open nor close a
section (blank lines included). -/
def isMidL (l : List Char) : Bool := !isOpenL l && !isCloseL l

/-- Body content that is already fully and validly wrapped: a sequence of
blank lines and section blocks, each block opened by an identified `<sec`
line, containing only non-opener non-closer lines, and closed by a `</sec>`
line. -/
inductive WellWrapped : List (List Char) → Prop
  | nil : WellWrapped []
  | blank {l : List Char} {ls : List (List Char)} :
      isBlankL l = true → WellWrapped ls → WellWrapped (l :: ls)
  | block {l c : List Char} {ms ls : List (List Char)} :
      isOpenL l = true → hasIdL l = true → (∀ m ∈ ms, isMidL m = true) →
      isCloseL c = true → WellWrapped ls → WellWrapped (l :: (ms ++ c :: ls))

theorem isBlankL_iff {l : List Char} : isBlankL l = true ↔ pyStripL l = [] := by
  simp [isBlankL, List.isEmpty_iff]

theorem isOpenL_not_blank {l : List Char} (h : isOpenL l = true) : isBlankL l = false := by
  rw [Bool.eq_false_iff]
  intro hb
  rw [isBlankL_iff] at hb
  rw [isOpenL, hb] at h
  simp [startsWithL, expectL] at h

theorem isCloseL_not_blank {l : List Char} (h : isCloseL l = true) : isBlankL l = false := by
  rw [Bool.eq_false_iff]
  intro hb
  rw [isBlankL_iff] at hb
  rw [isCloseL, hb] at h
  simp [startsWithL, expectL] at h

theorem isCloseL_not_open {l : List Char} (h : isCloseL l = true) : isOpenL l = false := by
  rw [isCloseL, startsWithL] at h
  cases hE : expectL ("</sec>".data) (pyStripL l) with
  | none => rw [hE] at h; simp at h
  | some t =>
    have := expectL_some_eq hE
    rw [isOpenL, startsWithL, this]
    simp [expectL]

/-- Behavior of one machine step on a blank line. -/
theorem wrapStep_blank (gen : Nat → String) (st : WState) (l : List Char)
    (h : isBlankL l = true) :
    wrapStep gen st l =
      if st.current ≠ [] then { st with current := st.current ++ [l] } else st := by
  simp [wrapStep, isBlankL_iff.mp h]

/-- Behavior of one machine step on an identified opener when no orphan
lines are pending. -/
theorem wrapStep_open_id (gen : Nat → String) (st : WState) (l : List Char)
    (ho : isOpenL l = true) (hid : hasIdL l = true) (hcur : st.current = []) :
    wrapStep gen st l = { st with result := st.result ++ [l], inSec := true, current := [] } := by
  have hb : pyStripL l ≠ [] := by
    intro hb
    have := isOpenL_not_blank ho
    rw [isBlankL_iff.symm] at hb
    rw [hb] at this
    exact absurd this (by simp)
  rw [isOpenL, startsWithL] at ho
  rw [hasIdL] at hid
  simp [wrapStep, hb, startsWithL, ho, hid, hcur]

/-- Behavior of one machine step on a closer line. -/
theorem wrapStep_close (gen : Nat → String) (st : WState) (l : List Char)
    (hc : isCloseL l = true) :
    wrapStep gen st l =
      { st with result := st.result ++ [l], inSec := false, current := [] } := by
  have hb : pyStripL l ≠ [] := by
    intro hb
    have := isCloseL_not_blank hc
    rw [isBlankL_iff.symm] at hb
    rw [hb] at this
    exact absurd this (by simp)
  have ho := isCloseL_not_open hc
  rw [isOpenL, startsWithL] at ho
  rw [isCloseL, startsWithL] at hc
  simp [wrapStep, hb, startsWithL, ho, hc]

/-- Behavior of one machine step on a non-blank inner line while inside a
section. -/
theorem wrapStep_mid_in (gen : Nat → String) (st : WState) (l : List Char)
    (hb : isBlankL l = false) (hm : isMidL l = true) (hin : st.inSec = true) :
    wrapStep gen st l = { st with result := st.result ++ [l] } := by
  obtain ⟨ho, hc⟩ : isOpenL l = false ∧ isCloseL l = false := by
    rw [isMidL] at hm
    constructor <;> simp_all
  have hb' : pyStripL l ≠ [] := by
    intro hbe
    rw [← isBlankL_iff] at hbe
    rw [hbe] at hb
    exact absurd hb (by simp)
  rw [isOpenL, startsWithL] at ho
  rw [isCloseL, startsWithL] at hc
  simp [wrapStep, hb', startsWithL, ho, hc, hin]

/-- Folding the machine over inner section lines from an in-section state
emits exactly the non-blank lines. -/
theorem foldl_mids (gen : Nat → String) (k : Nat) (ms : List (List Char))
    (hm : ∀ m ∈ ms, isMidL m = true) :
    ∀ res, ms.foldl (wrapStep gen) ⟨res, [], true, k⟩ =
      ⟨res ++ ms.filter (fun l => !isBlankL l), [], true, k⟩ := by
  induction ms with
  | nil => intro res; simp
  | cons m ms' ih =>
    intro res
    have hm' : ∀ x ∈ ms', isMidL x = true := fun x hx => hm x (List.mem_cons_of_mem m hx)
    by_cases hb : isBlankL m = true
    · rw [List.foldl_cons, wrapStep_blank gen _ m hb, if_neg (by simp)]
      rw [ih hm' res, List.filter_cons_of_neg (by simp [hb])]
    · rw [List.foldl_cons,
        wrapStep_mid_in gen _ m (Bool.eq_false_iff.mpr hb) (hm m (List.mem_cons_self m ms')) rfl]
      rw [ih hm' (res ++ [m]), List.filter_cons_of_pos (by simp [hb])]
      simp

/-- Folding the machine over fully wrapped lines from an outside state with
empty orphan buffer emits exactly the non-blank lines, synthesizes nothing,
and draws no identifier. -/
theorem foldl_wellWrapped (gen : Nat → String) (k : Nat) {lines : List (List Char)}
    (h : WellWrapped lines) :
    ∀ res, lines.foldl (wrapStep gen) ⟨res, [], false, k⟩ =
      ⟨res ++ lines.filter (fun l => !isBlankL l), [], false, k⟩ := by
  induction h with
  | nil => intro res; simp
  | @blank l ls hb _ ih =>
    intro res
    rw [List.foldl_cons, wrapStep_blank gen _ l hb, if_neg (by simp)]
    rw [ih res, List.filter_cons_of_neg (by simp [hb])]
  | @block l c ms ls ho hid hm hc _ ih =>
    intro res
    rw [List.foldl_cons, wrapStep_open_id gen _ l ho hid rfl]
    rw [List.foldl_append]
    rw [foldl_mids gen k ms hm (res ++ [l])]
    rw [List.foldl_cons, wrapStep_close gen _ c hc]
    rw [ih (res ++ [l] ++ ms.filter (fun x => !isBlankL x) ++ [c])]
    rw [List.filter_cons_of_pos (by simp [isOpenL_not_blank ho]), List.filter_append,
      List.filter_cons_of_pos (by simp [isCloseL_not_blank hc])]
    simp

/-- The full line pass on fully wrapped lines: output is the non-blank input
lines in order, the final flush does not fire, and the identifier counter is
unchanged. -/
theorem resultLines_wellWrapped (gen : Nat → String) (k : Nat)
    {lines : List (List Char)} (h : WellWrapped lines) :
    resultLines gen k lines = (lines.filter (fun l => !isBlankL l), k) := by
  unfold resultLines
  rw [foldl_wellWrapped gen k h []]
  simp

/-- C8: a body whose lines are already fully and validly wrapped in
identified section containers gets zero additional section containers (the
emitted lines are exactly the non-blank input lines, in order, and no
identifier is drawn); and a body whose content is only whitespace is
returned unchanged, whitespace included. -/
theorem already_wrapped_zero_synthesis (gen : Nat → String) (k : Nat)
    (lines : List (List Char)) (hW : WellWrapped lines)
    (openT contentT closeT : List Char) (hws : pyStripL contentT = []) :
    resultLines gen k lines = (lines.filter (fun l => !isBlankL l), k) ∧
    wrapBodyMatch gen k openT contentT closeT = (openT ++ contentT ++ closeT, k) :=
  ⟨resultLines_wellWrapped gen k hW, by simp [wrapBodyMatch, hws]⟩

/-- Witness for C8 at a concrete wrapped body and whitespace body. -/
theorem already_wrapped_zero_synthesis_witness :
    (WellWrapped ["<sec id=\"a\">".data, "<p>x</p>".data, "</sec>".data] ∧
      pyStripL ("  ".data) = []) ∧
    (resultLines idStub 0 ["<sec id=\"a\">".data, "<p>x</p>".data, "</sec>".data] =
        (["<sec id=\"a\">".data, "<p>x</p>".data, "</sec>".data].filter
          (fun l => !isBlankL l), 0) ∧
      wrapBodyMatch idStub 0 ("<body>".data) ("  ".data) ("</body>".data) =
        ("<body>".data ++ "  ".data ++ "</body>".data, 0)) :=
  have hw : WellWrapped ["<sec id=\"a\">".data, "<p>x</p>".data, "</sec>".data] :=
    @WellWrapped.block ("<sec id=\"a\">".data) ("</sec>".data) (["<p>x</p>".data]) ([])
      (by decide) (by decide) (by decide) (by decide) WellWrapped.nil
  ⟨⟨hw, by decide⟩,
    already_wrapped_zero_synthesis idStub 0 _ hw ("<body>".data) ("  ".data) ("</body>".data)
      (by decide)⟩

/-! ## Frame lemmas for the body scanner (C10)

Both body literals have the shape `'<' :: tail` with no `'<'` in the tail,
so an occurrence of a literal can never straddle the boundary between a
clean prefix and a region that starts with `'<'`. -/

theorem expectL_no_lt {cs : List Char} (h : '<' ∉ cs) :
    ∀ a b : List Char, (expectL cs (a ++ '<' :: b)).isSome = true →
      (expectL cs a).isSome = true := by
  induction cs with
  | nil => intro a b _; simp [expectL]
  | cons c cs' ih =>
    intro a b hsome
    have hc : c ≠ '<' := fun he => h (he ▸ List.mem_cons_self c cs')
    have hcs : '<' ∉ cs' := fun hm => h (List.mem_cons_of_mem c hm)
    cases a with
    | nil =>
      rw [List.nil_append] at hsome
      rw [expectL, if_neg hc] at hsome
      simp at hsome
    | cons d a' =>
      rw [List.cons_append] at hsome
      by_cases hcd : c = d
      · subst hcd
        rw [expectL, if_pos rfl] at hsome
        rw [expectL, if_pos rfl]
        exact ih hcs a' b hsome
      · rw [expectL, if_neg hcd] at hsome
        simp at hsome

theorem straddle_lt {litT : List Char} (h : '<' ∉ litT) {a : List Char} (b : List Char)
    (hne : a ≠ []) (hsome : (expectL ('<' :: litT) (a ++ '<' :: b)).isSome = true) :
    (expectL ('<' :: litT) a).isSome = true := by
  cases a with
  | nil => exact absurd rfl hne
  | cons d a' =>
    rw [List.cons_append] at hsome
    by_cases hd : '<' = d
    · subst hd
      rw [expectL, if_pos rfl] at hsome
      rw [expectL, if_pos rfl]
      exact expectL_no_lt h a' b hsome
    · rw [expectL, if_neg hd] at hsome
      simp at hsome

theorem hasSub_split {pat : List Char} :
    ∀ {l : List Char}, hasSub pat l = false → ∀ a b : List Char, l = a ++ b →
      (expectL pat b).isSome = false := by
  intro l
  induction l with
  | nil =>
    intro h a b hab
    obtain ⟨_, hb⟩ := List.append_eq_nil.mp hab.symm
    subst hb
    simpa [hasSub] using h
  | cons c cs ih =>
    intro h a b hab
    rw [hasSub, Bool.or_eq_false_iff] at h
    cases a with
    | nil => rw [List.nil_append] at hab; subst hab; exact h.1
    | cons d a' =>
      rw [List.cons_append] at hab
      exact ih h.2 a' b (List.cons.injEq .. ▸ hab).2

theorem tryBody_none {s : List Char} (h : (expectL bodyOpenLit s).isSome = false) :
    tryBody s = none := by
  unfold tryBody
  cases hE : expectL bodyOpenLit s with
  | none => rfl
  | some t => rw [hE] at h; simp at h

theorem scanBody_nil (gen : Nat → String) (n k : Nat) : scanBody gen n k [] = [] := by
  cases n <;> rfl

theorem scanBody_prefix (gen : Nat → String) :
    ∀ (a : List Char) (n k : Nat) (b : List Char), hasSub bodyOpenLit a = false →
      (b = [] ∨ ∃ b', b = '<' :: b') → a.length + b.length ≤ n →
      scanBody gen n k (a ++ b) = a ++ scanBody gen (n - a.length) k b := by
  intro a
  induction a with
  | nil => intro n k b _ _ _; simp
  | cons c a' ih =>
    intro n k b h hb hn
    have hlen : 1 ≤ n := by simp [List.length_cons] at hn; omega
    obtain ⟨m, rfl⟩ : ∃ m, n = m + 1 := ⟨n - 1, by omega⟩
    have hNone : (expectL bodyOpenLit (c :: a' ++ b)).isSome = false := by
      rcases hb with rfl | ⟨b', rfl⟩
      · rw [List.append_nil]
        exact hasSub_split h [] (c :: a') rfl
      · rw [Bool.eq_false_iff]
        intro hsome
        have h1 := straddle_lt (by decide : '<' ∉ "body".data) b'
          (by simp : (c :: a') ≠ []) (by simpa [bodyOpenLit] using hsome)
        have h2 : (expectL bodyOpenLit (c :: a')).isSome = true := by
          simpa [bodyOpenLit] using h1
        rw [hasSub_split h [] (c :: a') rfl] at h2
        exact absurd h2 (by decide)
    have hNone2 : tryBody (c :: (a' ++ b)) = none := tryBody_none (by simpa using hNone)
    have hstep : scanBody gen (m + 1) k ((c :: a') ++ b) =
        c :: scanBody gen m k (a' ++ b) := by
      simp only [List.cons_append, scanBody, List.append_eq, hNone2]
    rw [hstep]
    have htail : hasSub bodyOpenLit a' = false := by
      rw [hasSub, Bool.or_eq_false_iff] at h
      exact h.2
    rw [ih m k b htail hb (by simp [List.length_cons] at hn; omega)]
    simp [List.length_cons]

theorem splitFirst_exact {inner : List Char} (post : List Char)
    (h : hasSub bodyCloseLit inner = false) :
    splitFirst bodyCloseLit (inner ++ bodyCloseLit ++ post) = some (inner, post) := by
  induction inner with
  | nil =>
    rw [List.nil_append]
    show splitFirst bodyCloseLit ('<' :: ("/body>".data ++ post)) = some ([], post)
    rw [splitFirst]
    have : expectL bodyCloseLit ('<' :: ("/body>".data ++ post)) = some post := by
      have := expectL_append bodyCloseLit post
      simpa [bodyCloseLit] using this
    rw [this]
  | cons c inner' ih =>
    have htail : hasSub bodyCloseLit inner' = false := by
      rw [hasSub, Bool.or_eq_false_iff] at h
      exact h.2
    have hNone : (expectL bodyCloseLit ((c :: inner') ++ bodyCloseLit ++ post)).isSome
        = false := by
      rw [Bool.eq_false_iff]
      intro hsome
      have hshape : (c :: inner') ++ bodyCloseLit ++ post =
          (c :: inner') ++ '<' :: ("/body>".data ++ post) := by
        simp [bodyCloseLit, List.append_assoc]
      rw [hshape] at hsome
      have h1 := straddle_lt (by decide : '<' ∉ "/body>".data) ("/body>".data ++ post)
        (by simp : (c :: inner') ≠ []) (by simpa [bodyCloseLit] using hsome)
      have h2 : (expectL bodyCloseLit (c :: inner')).isSome = true := by
        simpa [bodyCloseLit] using h1
      rw [hasSub_split h [] (c :: inner') rfl] at h2
      exact absurd h2 (by decide)
    have hNone' : expectL bodyCloseLit (c :: ((inner' ++ bodyCloseLit) ++ post)) = none := by
      cases hE : expectL bodyCloseLit (c :: ((inner' ++ bodyCloseLit) ++ post)) with
      | none => rfl
      | some t =>
        rw [show (c :: inner') ++ bodyCloseLit ++ post =
          c :: ((inner' ++ bodyCloseLit) ++ post) from by simp, hE] at hNone
        simp at hNone
    have hcons : (c :: inner') ++ bodyCloseLit ++ post =
        c :: ((inner' ++ bodyCloseLit) ++ post) := by simp
    rw [hcons, splitFirst, hNone', ih htail]

theorem tryBody_at (attrs inner post : List Char)
    (hattrs : ∀ c ∈ attrs, (c != '>') = true)
    (hinner : hasSub bodyCloseLit inner = false) :
    tryBody (bodyOpenLit ++ (attrs ++ ('>' :: (inner ++ (bodyCloseLit ++ post))))) =
      some (bodyOpenLit ++ attrs ++ ['>'], inner, post) := by
  unfold tryBody
  rw [expectL_append]
  simp only [Option.bind_eq_bind, Option.some_bind]
  rw [takeRun_append_all (inner ++ (bodyCloseLit ++ post)) hattrs (by decide)]
  have hsp : splitFirst bodyCloseLit (inner ++ (bodyCloseLit ++ post)) = some (inner, post) := by
    rw [← List.append_assoc]
    exact splitFirst_exact post hinner
  simp [expectL, hsp]

theorem scanBody_step (gen : Nat → String) (k : Nat) {s : List Char} {o i t : List Char}
    (h : tryBody s = some (o, i, t)) (hs : s ≠ []) :
    scanBody gen s.length k s =
      (wrapBodyMatch gen k o i bodyCloseLit).1 ++
        scanBody gen (s.length - 1) (wrapBodyMatch gen k o i bodyCloseLit).2 t := by
  cases s with
  | nil => exact absurd rfl hs
  | cons c cs =>
    show scanBody gen (cs.length + 1) k (c :: cs) = _
    simp [scanBody, h]

set_option maxRecDepth 2000 in
/-- C10: section wrapping is frame-preserving.  For a buffer made of a
clean prefix, one body region, and a clean suffix, the output is the prefix,
the rewritten body framed by its original opening and closing tags, and the
suffix, all byte-for-byte; a buffer with no body opening tag at all is
returned unchanged. -/
theorem body_wrap_frame (gen : Nat → String) (pre attrs inner post : List Char)
    (hpre : hasSub bodyOpenLit pre = false)
    (hattrs : ∀ c ∈ attrs, (c != '>') = true)
    (hinner : hasSub bodyCloseLit inner = false)
    (hpost : hasSub bodyOpenLit post = false) :
    wrap_body_content_in_sections gen
        ⟨pre ++ (bodyOpenLit ++ (attrs ++ ('>' :: (inner ++ (bodyCloseLit ++ post)))))⟩ =
      ⟨pre ++ ((wrapBodyMatch gen 0 (bodyOpenLit ++ attrs ++ ['>']) inner bodyCloseLit).1
        ++ post)⟩ ∧
    (∀ k openT contentT closeT, ∃ mid,
        (wrapBodyMatch gen k openT contentT closeT).1 = openT ++ (mid ++ closeT)) ∧
    (∀ s : List Char, hasSub bodyOpenLit s = false → scanBody gen s.length 0 s = s) := by
  have h3 : ∀ s : List Char, hasSub bodyOpenLit s = false →
      scanBody gen s.length 0 s = s := by
    intro s hs
    have := scanBody_prefix gen s s.length 0 [] hs (Or.inl rfl) (by simp)
    simpa [scanBody_nil] using this
  have h2 : ∀ k openT contentT closeT, ∃ mid,
      (wrapBodyMatch gen k openT contentT closeT).1 = openT ++ (mid ++ closeT) := by
    intro k o ct cl
    by_cases hws : pyStripL ct = []
    · exact ⟨ct, by simp [wrapBodyMatch, hws]⟩
    · refine ⟨'\n' :: (joinNlL (resultLines gen k (splitNlL ct)).1 ++ ['\n']), ?_⟩
      simp [wrapBodyMatch, hws, List.append_assoc]
  refine ⟨?_, h2, h3⟩
  refine congrArg String.mk ?_
  have hBshape : bodyOpenLit ++ (attrs ++ ('>' :: (inner ++ (bodyCloseLit ++ post)))) =
      '<' :: ("body".data ++ (attrs ++ ('>' :: (inner ++ (bodyCloseLit ++ post))))) := by
    simp [bodyOpenLit]
  have hpref := scanBody_prefix gen pre
    (pre ++ (bodyOpenLit ++ (attrs ++ ('>' :: (inner ++ (bodyCloseLit ++ post)))))).length 0
    (bodyOpenLit ++ (attrs ++ ('>' :: (inner ++ (bodyCloseLit ++ post)))))
    hpre (Or.inr ⟨_, hBshape⟩) (by simp [List.length_append])
  rw [hpref]
  have hfuel : (pre ++ (bodyOpenLit ++ (attrs ++ ('>' :: (inner ++
      (bodyCloseLit ++ post)))))).length - pre.length =
      (bodyOpenLit ++ (attrs ++ ('>' :: (inner ++ (bodyCloseLit ++ post))))).length := by
    simp [List.length_append]
  rw [hfuel]
  have hstep := scanBody_step gen 0
    (tryBody_at attrs inner post hattrs hinner)
    (by rw [hBshape]; simp)
  rw [hstep]
  have hpost' := scanBody_prefix gen post
    ((bodyOpenLit ++ (attrs ++ ('>' :: (inner ++ (bodyCloseLit ++ post))))).length - 1)
    ((wrapBodyMatch gen 0 (bodyOpenLit ++ attrs ++ ['>']) inner bodyCloseLit).2) []
    hpost (Or.inl rfl)
    (by simp [bodyOpenLit, bodyCloseLit, List.length_append]; omega)
  rw [List.append_nil] at hpost'
  rw [hpost', scanBody_nil, List.append_nil]

def c10pre : List Char := "x".data
def c10attrs : List Char := " class=\"b\"".data
def c10inner : List Char := "\n<p>q</p>\n".data
def c10post : List Char := "tail".data

/-- Witness for the C10 frame theorem at concrete clean prefix, attributes,
body content, and suffix. -/
theorem body_wrap_frame_witness :
    (hasSub bodyOpenLit c10pre = false ∧ (∀ c ∈ c10attrs, (c != '>') = true) ∧
      hasSub bodyCloseLit c10inner = false ∧ hasSub bodyOpenLit c10post = false) ∧
    (wrap_body_content_in_sections idStub
        ⟨c10pre ++ (bodyOpenLit ++ (c10attrs ++ ('>' :: (c10inner ++
          (bodyCloseLit ++ c10post)))))⟩ =
      ⟨c10pre ++ ((wrapBodyMatch idStub 0 (bodyOpenLit ++ c10attrs ++ ['>']) c10inner
        bodyCloseLit).1 ++ c10post)⟩ ∧
    (∀ k openT contentT closeT, ∃ mid,
        (wrapBodyMatch idStub k openT contentT closeT).1 = openT ++ (mid ++ closeT)) ∧
    (∀ s : List Char, hasSub bodyOpenLit s = false → scanBody idStub s.length 0 s = s)) :=
  ⟨⟨by decide, by decide, by decide, by decide⟩,
    body_wrap_frame idStub c10pre c10attrs c10inner c10post
      (by decide) (by decide) (by decide) (by decide)⟩

/-! ## Figure synthesis (C5) -/

theorem digit_not_ws {c : Char} (h : c.isDigit = true) : isWs c = false := by
  rw [Bool.eq_false_iff]
  intro hw
  simp only [isWs, Bool.or_eq_true, beq_iff_eq] at hw
  rcases hw with ((((h1 | h1) | h1) | h1) | h1) | h1 <;> subst h1 <;>
    exact absurd h (by decide)

/-- A figure-pattern input with parametric figure number `D` and trailing
caption text `C`: a paragraph holding only a bold `Figure D` label, then a
paragraph holding an inline image (href `img.png`, mime-subtype `png`)
followed by the caption text. -/
def figInput (D C : List Char) : String :=
  ⟨"<p><bold>Figure ".data ++ D ++
    "</bold></p>\n<p><inline-graphic mime-subtype=\"png\" xlink:href=\"img.png\"></inline-graphic>".data
    ++ C ++ "</p>".data⟩

/-- Expected figure synthesis result for `figInput D C`: one figure element
whose label text is `Figure D`, whose graphic carries href `img.png` and
mime-subtype `png`, whose caption paragraph holds exactly the trimmed
caption text, and whose six identifiers are the six distinctly prefixed
draws 0–5 of the supply. -/
def figOutput (gen : Nat → String) (D C : List Char) : String :=
  ⟨"<fig id=\"fig-".data ++ (gen 0).data
    ++ "\">\n        <object-id id=\"object-id-".data ++ (gen 1).data
    ++ "\">fig-".data ++ (gen 0).data
    ++ "</object-id>\n        <label>Figure ".data ++ D
    ++ "</label>\n        <caption id=\"caption-".data ++ (gen 2).data
    ++ "\">\n          <title id=\"title-".data ++ (gen 3).data
    ++ "\" />\n          <p id=\"p-".data ++ (gen 4).data
    ++ "\">".data ++ pyStripL C
    ++ "</p>\n        </caption>\n        <graphic id=\"graphic-".data ++ (gen 5).data
    ++ "\" mime-subtype=\"png\" mimetype=\"image\" xlink:href=\"img.png\" />\n      </fig>".data⟩

/-- Figure-pattern input whose inline image has no attributes at all. -/
def figDefaultsIn : String :=
  "<p><bold>Figure 7</bold></p><p><inline-graphic></inline-graphic></p>"

/-- What figure synthesis produces from `figDefaultsIn` under the `idStub`
supply: the href defaults to `image.png` and the mime-subtype to `png`. -/
def figDefaultsOut : String :=
  "<fig id=\"fig-\">\n        <object-id id=\"object-id-x\">fig-</object-id>\n        <label>Figure 7</label>\n        <caption id=\"caption-xx\">\n          <title id=\"title-xxx\" />\n          <p id=\"p-xxxx\"></p>\n        </caption>\n        <graphic id=\"graphic-xxxxx\" mime-subtype=\"png\" mimetype=\"image\" xlink:href=\"image.png\" />\n      </fig>"

set_option maxRecDepth 20000 in
set_option maxHeartbeats 3200000 in
/-- C5: for every identifier supply, every nonempty digit string `D` and
every caption text `C` free of element-open characters, figure synthesis
maps the label+image paragraph pair to the single figure element
`figOutput` (label `Figure D`, extracted href and mime-subtype, caption
exactly the trimmed trailing text); the six generated identifiers are
pairwise distinct; and when the image attributes are absent the href and
mime-subtype default to `image.png` and `png`. -/
theorem figure_synthesis_spec (gen : Nat → String) (D C : List Char)
    (hD : D ≠ []) (hDd : ∀ c ∈ D, c.isDigit = true) (hC : ∀ c ∈ C, (c != '<') = true) :
    parse_figures_for_jats gen (figInput D C) = figOutput gen D C ∧
    List.Pairwise (fun a b => a ≠ b)
      ["fig-" ++ gen 0, "object-id-" ++ gen 1, "caption-" ++ gen 2,
       "title-" ++ gen 3, "p-" ++ gen 4, "graphic-" ++ gen 5] ∧
    parse_figures_for_jats idStub figDefaultsIn = figDefaultsOut := by
  refine ⟨?_, ?_, by decide⟩
  · obtain ⟨d, D', rfl⟩ : ∃ d D', D = d :: D' := by
      cases D with
      | nil => exact absurd rfl hD
      | cons d D' => exact ⟨d, D', rfl⟩
    have hd : d.isDigit = true := hDd d (List.mem_cons_self d D')
    have hD'd : ∀ c ∈ D', c.isDigit = true := fun c hc => hDd c (List.mem_cons_of_mem d hc)
    have htrD : ∀ rest : List Char, takeRun (fun c => c.isDigit) ((d :: D') ++ '<' :: rest) =
        (d :: D', '<' :: rest) := fun rest => takeRun_append_all rest hDd (by decide)
    have htrD2 : ∀ rest : List Char, takeRun (fun c => c.isDigit) (D' ++ '<' :: rest) =
        (D', '<' :: rest) := fun rest => takeRun_append_all rest hD'd (by decide)
    have htrC : ∀ rest : List Char, takeRun (· != '<') (C ++ '<' :: rest) = (C, '<' :: rest) :=
      fun rest => takeRun_append_all rest hC (by decide)
    have hne : ∀ x : Char, x.isDigit = false → (d = x) = False := by
      intro x hx
      simp only [eq_iff_iff, iff_false]
      intro he
      rw [he, hx] at hd
      cases hd
    refine congrArg String.mk ?_
    simp [figInput, figOutput, parse_figures_for_jats, scanFig, tryFig, tryFigLabelPara,
      tryFigImagePara, tryGraphicTail, replaceFigure, searchFirst, tryLabelAt, tryAttrAt,
      expectL, takeRun, isWs, closeIG, closePara, htrD, htrD2, htrC, hd, hD'd,
      hne ' ' (by decide), hne '\t' (by decide), hne '\n' (by decide),
      hne '\x0d' (by decide), hne '\x0b' (by decide), hne '\x0c' (by decide),
      List.append_assoc]
  · have hp : List.Pairwise (fun a b : Option Char => a ≠ b)
        ((["fig-" ++ gen 0, "object-id-" ++ gen 1, "caption-" ++ gen 2,
          "title-" ++ gen 3, "p-" ++ gen 4, "graphic-" ++ gen 5]).map
            (fun s => s.data.head?)) := by
      show List.Pairwise _ [some 'f', some 'o', some 'c', some 't', some 'p', some 'g']
      decide
    exact List.Pairwise.of_map _
      (fun a b h he => h (congrArg (fun s : String => s.data.head?) he)) hp

set_option maxRecDepth 20000 in
/-- Witness for C5 at the spec's concrete example: figure number `1` and
caption `Sample caption` with a leading space that trimming removes. -/
theorem figure_synthesis_spec_witness :
    (("1".data : List Char) ≠ [] ∧ (∀ c ∈ ("1".data : List Char), c.isDigit = true) ∧
      (∀ c ∈ (" Sample caption".data : List Char), (c != '<') = true)) ∧
    (parse_figures_for_jats idStub (figInput ("1".data) (" Sample caption".data)) =
        figOutput idStub ("1".data) (" Sample caption".data) ∧
      List.Pairwise (fun a b => a ≠ b)
        ["fig-" ++ idStub 0, "object-id-" ++ idStub 1, "caption-" ++ idStub 2,
         "title-" ++ idStub 3, "p-" ++ idStub 4, "graphic-" ++ idStub 5] ∧
      parse_figures_for_jats idStub figDefaultsIn = figDefaultsOut) :=
  ⟨⟨by decide, by decide, by decide⟩,
    figure_synthesis_spec idStub ("1".data) (" Sample caption".data)
      (by decide) (by decide) (by decide)⟩

end DocxMd
